import Mathlib

/-!
Verification development for the AEP AI Center agent core.

Shallow embedding of `src/backend/src/agent/agent.service.js` (the turn
orchestrator: `processMessage`, `handleToolCalls`, `summarizeResultsWithLLM`,
`formatResultsBasic`, `executeApprovedAction`, `formatToolResult`,
`getActionDescription`, `handleWithRules`, `getHistory`, `clearHistory`)
and of the bounded query poll loop in the Express routes file
(`POST /queries` handler).

Modelling conventions:
- JavaScript values are modelled by `JVal` (strings, integer numbers,
  booleans, `null`, `undefined`, objects as association lists, arrays).
  Numeric values are modelled as integers; no claim involves non-integer
  arithmetic.
- The tool registry (`tools/index.js`) and the LLM client
  (`llm.service.js`) are not part of the provided sources; they are
  modelled as an environment record `Env`: `requiresApproval` and
  `executeTool` stand for the registry, `llmConfigured` / `llmChat` /
  `llmSummarize` stand for the outcomes of the LLM client calls made in
  one turn.  Theorems quantify over the environment, so they hold for
  every behaviour of these collaborators.
- Thrown JS exceptions are modelled with `Except JsError`; an uncaught
  exception surfaces as the `TurnResult.thrown` constructor.
- Tool executions (and their order) are observable through an explicit
  trace of `(toolName, arguments)` invocations returned next to each
  result.
-/

namespace Agent

/-- JavaScript runtime values, as far as the agent core inspects them.
Objects are association lists in key order (`Object.keys` order). -/
inductive JVal where
  | str (s : String)
  | num (n : Int)
  | bool (b : Bool)
  | null
  | undefined
  | obj (fields : List (String × JVal))
  | arr (elems : List JVal)

/-- JS truthiness (`if (v)`): `undefined`, `null`, `false`, `0` and `""`
are falsy; objects and arrays are truthy. -/
def truthy : JVal → Bool
  | .str s => s ≠ ""
  | .num n => n ≠ 0
  | .bool b => b
  | .null => false
  | .undefined => false
  | .obj _ => true
  | .arr _ => true

/-- JS `a || b` on values. -/
def jsOr (a b : JVal) : JVal := if truthy a then a else b

/-- Optional-chained property access `v?.[k]`: object field lookup (first
binding wins), array access by numeric index, `undefined` otherwise. -/
def getField (v : JVal) (k : String) : JVal :=
  match v with
  | .obj fields => (fields.lookup k).getD .undefined
  | .arr elems =>
      match k.toNat? with
      | some i => elems.getD i .undefined
      | none => .undefined
  | _ => .undefined

/-- Embedding of `Object.keys v` for the object/array cases inspected by the code. -/
def keysOf : JVal → List String
  | .obj fields => fields.map (fun f => f.1)
  | .arr elems => (List.range elems.length).map toString
  | _ => []

/-- Embedding of `typeof v === 'object'` (true for objects, arrays and `null`). -/
def typeofIsObject : JVal → Bool
  | .obj _ => true
  | .arr _ => true
  | .null => true
  | _ => false

/-- Embedding of `typeof v === 'object' && v !== null`, the guard of the default
formatter branch. -/
def isObjectLike : JVal → Bool
  | .obj _ => true
  | .arr _ => true
  | _ => false

/-- JS template-literal rendering of a value.  Scalar cases follow JS
exactly.  Rendering an object gives the JS `[object Object]`; rendering a
non-empty array (JS joins its elements) is outside the modelled domain —
no code path reached by the claims interpolates an array. -/
def jsTemplate : JVal → String
  | .str s => s
  | .num n => toString n
  | .bool true => "true"
  | .bool false => "false"
  | .null => "null"
  | .undefined => "undefined"
  | .obj _ => "[object Object]"
  | .arr _ => ""

/-- Embedding of `v?.substring(0, n)` followed by template interpolation: for a string,
its first `n` characters; for a missing/`null` value, the interpolation of
`undefined`.  (A non-string, non-nullish receiver would throw in JS and is
outside the modelled domain.) -/
def jsSubstrTpl (n : Nat) (v : JVal) : String :=
  match v with
  | .str s => s.take n
  | _ => "undefined"

/-- An array-valued expression (`x || []` contexts): surrounding code
immediately indexes/iterates the value, so the modelled domain takes the
array case and treats anything else as empty. -/
def asArray : JVal → List JVal
  | .arr elems => elems
  | _ => []

/-- One chat message as the orchestrator uses it: `{role, content}` (the
caller-side `timestamp` field is dropped by the projection at line 88 of
the source and never inspected, so it is not modelled). -/
structure ChatMsg where
  role : String
  content : String
deriving DecidableEq

/-- A thrown JS error, as far as the orchestrator inspects it
(`error.message`). -/
structure JsError where
  message : String
deriving DecidableEq

/-- A tool call produced by `llm.parseToolCalls`. -/
structure ToolCall where
  name : String
  arguments : JVal

/-- Outcome of the first LLM round trip of a turn
(`chatCompletion` + `parseToolCalls` + `getContent`): the parsed tool
calls (`null` and `[]` take the same branch at line 110, so both are the
empty list) and the plain-text content. -/
structure LlmTurn where
  toolCalls : List ToolCall
  content : String

/-- The caller-echoed approved action (`{toolName, toolArguments}`; any
further fields are ignored by `executeApprovedAction`). -/
structure ApprovedAction where
  toolName : String
  toolArguments : JVal

/-- The pending-approval response object
`{requiresApproval: true, toolName, toolArguments, actionDescription}`. -/
structure PendingResponse where
  toolName : String
  toolArguments : JVal
  actionDescription : String

/-- A normal response object `{content, data?, toolsUsed}`; `data = none`
models an absent `data` field (`some .null` is a present field holding
`null`). -/
structure AgentResponse where
  content : String
  data : Option JVal
  toolsUsed : List String

/-- Everything `processMessage` can produce: a response object, a
pending-approval object, or an uncaught exception propagating to the
caller. -/
inductive TurnResult where
  | response (r : AgentResponse)
  | pending (p : PendingResponse)
  | thrown (e : JsError)

/-- The module-level mutable state of `agent.service.js`: the
`let chatHistory = []` binding at line 10. -/
structure AgentState where
  chatHistory : List ChatMsg
deriving DecidableEq

/-- The argument object of `processMessage`. -/
structure TurnInput where
  message : String
  autoMode : Bool
  history : List ChatMsg
  approvedAction : Option ApprovedAction

/-- A record of one `toolRegistry.executeTool(name, args)` invocation. -/
def ToolInvocation := String × JVal

/-- Result of one turn: the returned value, the module state after the
call, and the trace of tool executions attempted during the call. -/
structure TurnOutput where
  result : TurnResult
  state : AgentState
  trace : List (String × JVal)

/-- The collaborators of one turn.  `requiresApproval`/`executeTool` model
the tool registry (`tools/index.js`, not part of the provided sources);
`llmConfigured`, `llmChat` and `llmSummarize` model the outcomes of the
LLM client calls (`llm.service.js`, likewise external): `llmChat` maps the
built message context to the outcome of the tool-selection completion, and
`llmSummarize` is the outcome of the summarization completion of this
turn.  `dateLocale` models `new Date(x).toLocaleString()`.  Quantifying
over `Env` quantifies over every behaviour of these collaborators. -/
structure Env where
  requiresApproval : String → Bool
  executeTool : String → JVal → Except JsError JVal
  llmConfigured : Bool
  llmChat : List ChatMsg → Except JsError LlmTurn
  llmSummarize : Except JsError String
  dateLocale : JVal → String

/-- An entry of the per-turn results list: `{tool, data, args}` on
success, `{tool, error}` on failure (`args` is absent on the
approved-action path). -/
inductive ToolResult where
  | ok (tool : String) (data : JVal) (args : Option JVal)
  | err (tool : String) (error : String)

/-- Projection `r.data` as read by `summarizeResultsWithLLM` (`undefined` on an error
entry). -/
def toolResultData : ToolResult → JVal
  | .ok _ d _ => d
  | .err _ _ => .undefined

/-- Does `needle` occur as a contiguous substring of `hay`? -/
def hasInfix (needle : List Char) : List Char → Bool
  | [] => needle.isEmpty
  | c :: rest => needle.isPrefixOf (c :: rest) || hasInfix needle rest

/-- Matchability of the regex `(a₁|…|aₘ).*(b₁|…|bₙ)` (unanchored, as
`RegExp.test`): some alternative of `alts1` occurs and some alternative of
`alts2` occurs at or after its end.  All seven fallback patterns in the
source have exactly this shape. -/
def matchPair (alts1 alts2 : List String) : List Char → Bool
  | [] => false
  | c :: rest =>
      alts1.any (fun a =>
        a.data.isPrefixOf (c :: rest) &&
          alts2.any (fun b => hasInfix b.data ((c :: rest).drop a.data.length)))
      || matchPair alts1 alts2 rest

/-- Case-insensitive regex test (`/…/i.test(message)`): both sides are
lowered; the alternative lists are given in lower case. -/
def regexTestCI (alts1 alts2 : List String) (s : String) : Bool :=
  matchPair alts1 alts2 (s.data.map Char.toLower)

/-- First line of the system prompt (line 13 of the source).  The prompt
is a fixed string whose full text is never inspected by any control-flow
decision of the orchestrator — it only travels to the LLM collaborator as
the head of the message context — so the remainder of its text is not
replicated here; every theorem below is insensitive to its value.  (The
unused `SUMMARIZATION_PROMPT` constant of the source is dead code and not
modelled.) -/
def SYSTEM_PROMPT : String :=
  "You are an expert AI assistant for Adobe Experience Platform (AEP). You help users explore, analyze, AND create/manage their AEP resources."

/-- The static help message returned when no fallback pattern matches
(lines 390-398). -/
def helpMessage : String :=
  "👋 I can help you with AEP! Try asking:\n\n" ++
    "• \"Show me failed batches\"\n" ++
    "• \"How many segments are there?\"\n" ++
    "• \"Analyze batch errors for [batch-id]\"\n" ++
    "• \"Create a segment for users who purchased last week\"\n" ++
    "• \"Generate SQL for top 10 orders by revenue\"\n"

/-- Embedding of `getActionDescription(toolName, args)` (lines 346-357); the `switch`
is written as an equality chain. -/
def getActionDescription (toolName : String) (args : JVal) : String :=
  if toolName = "execute_sql_query" then
    "Execute SQL query:\n```sql\n" ++ jsSubstrTpl 100 (getField args "sql") ++ "...\n```"
  else if toolName = "generate_pql_from_description" then
    "Generate PQL segment expression for: \"" ++ jsTemplate (getField args "description") ++ "\""
  else if toolName = "generate_sql_from_intent" then
    "Generate SQL query for: \"" ++ jsTemplate (getField args "intent") ++ "\""
  else "Execute " ++ toolName

/-- The `get_failed_batches` case of `formatToolResult` (lines 277-289). -/
def formatFailedBatches (env : Env) (data : JVal) : String :=
  let batches := asArray (jsOr (getField data "batches") (.arr []))
  if batches.isEmpty then
    "✅ **Great news!** No failed batches found. Your ingestion is running smoothly!\n"
  else
    let base := "📊 I found **" ++ toString batches.length ++
      " failed batches** that need attention:\n\n"
    let lines := (batches.take 5).enum.foldl (fun acc ib =>
      acc ++ toString (ib.1 + 1) ++ ". Batch `" ++ jsSubstrTpl 12 (getField ib.2 "id") ++
        "...` - Failed at " ++ env.dateLocale (getField ib.2 "created") ++ "\n") ""
    let tail := if batches.length > 5 then
        "\n...and " ++ toString (batches.length - 5) ++
          " more. Would you like me to analyze any specific batch?\n"
      else ""
    base ++ lines ++ tail

/-- The `get_segment_stats` case of `formatToolResult` (lines 291-299). -/
def formatSegmentStats (data : JVal) : String :=
  let total := jsOr (getField data "total") (jsOr (getField data "totalSegments") (.num 0))
  let published := jsOr (getField (getField data "byState") "published")
    (jsOr (getField data "published") (.num 0))
  let draft := jsOr (getField (getField data "byState") "draft")
    (jsOr (getField data "draft") (.num 0))
  "🎯 **Segment Overview:**\n" ++
    "• **" ++ jsTemplate total ++ "** total segments in this sandbox\n" ++
    "• **" ++ jsTemplate published ++ "** are published and active\n" ++
    "• **" ++ jsTemplate draft ++ "** are in draft status\n\n" ++
    "Would you like me to show specific segments or help create a new one?\n"

/-- The `analyze_batch_errors` case of `formatToolResult` (lines 301-313).
`totalErrors === 0` is JS strict equality, true only for the number 0. -/
def formatBatchErrors (data : JVal) : String :=
  let totalErrors := jsOr (getField data "totalErrors") (.num 0)
  let topError := getField data "topError"
  match totalErrors with
  | .num 0 => "✅ No errors found in this batch.\n"
  | _ =>
    let errMsg := "🔬 **Error Analysis for batch " ++
      jsSubstrTpl 12 (getField data "batchId") ++ "...**\n\n" ++
      "Found **" ++ jsTemplate totalErrors ++ " errors** total.\n\n"
    if truthy topError then
      errMsg ++ "**Most common issue:** `" ++ jsTemplate (getField topError "errorCode") ++
        "` (" ++ jsTemplate (getField topError "percentage") ++ "% of errors)\n" ++
        "This typically means: " ++
        jsTemplate (jsOr (getField data "recommendation")
          (.str "Check the source data format.")) ++ "\n"
    else errMsg

/-- The `get_identity_graph` case of `formatToolResult` (lines 315-322). -/
def formatIdentityGraph (data : JVal) : String :=
  let members := asArray (jsOr (getField data "members") (.arr []))
  let graphMsg := "🔗 **Identity Graph for " ++
    jsTemplate (getField (getField data "inputIdentity") "namespace") ++ ":" ++
    jsSubstrTpl 15 (getField (getField data "inputIdentity") "identity") ++ "...**\n\n" ++
    "This identity is linked to **" ++ toString members.length ++ " other identities**:\n"
  if truthy (getField data "isSharedDevice") then
    graphMsg ++ "\n⚠️ **Warning:** Large cluster detected - this might be a shared device!\n"
  else graphMsg

/-- The default case of `formatToolResult` (lines 324-339): for object
data with at most 5 keys, a header plus a `key: value` line per field
whose `typeof` is not `'object'`; otherwise a bare success line. -/
def formatDefault (toolName : String) (data : JVal) : String :=
  if isObjectLike data && (keysOf data).length ≤ 5 then
    ((keysOf data).take 5).foldl (fun acc key =>
        let val := getField data key
        if !typeofIsObject val then acc ++ "• " ++ key ++ ": " ++ jsTemplate val ++ "\n"
        else acc)
      ("📦 **" ++ toolName ++ " completed:**\n")
  else "✅ **" ++ toolName ++ "** completed successfully.\n"

/-- The listing produced by the default formatter branch, written as a
recursive function for the characterization theorems: one `key: value`
line per listed key whose value's `typeof` is not `'object'`, nothing for
the other keys. -/
def scalarLines (data : JVal) : List String → String
  | [] => ""
  | k :: rest =>
      (if !typeofIsObject (getField data k) then
        "• " ++ k ++ ": " ++ jsTemplate (getField data k) ++ "\n"
      else "") ++ scalarLines data rest

/-- Embedding of `formatToolResult(toolName, data)` (lines 275-341); the `switch` is
written as an equality chain. -/
def formatToolResult (env : Env) (toolName : String) (data : JVal) : String :=
  if toolName = "get_failed_batches" then formatFailedBatches env data
  else if toolName = "get_segment_stats" then formatSegmentStats data
  else if toolName = "analyze_batch_errors" then formatBatchErrors data
  else if toolName = "get_identity_graph" then formatIdentityGraph data
  else formatDefault toolName data

/-- Embedding of `formatResultsBasic(results, toolsUsed)` (lines 237-251): concatenate
a line per result (an error line for failed tools), `data` ends as the
last successful result's data, starting from `null`. -/
def formatResultsBasic (env : Env) (results : List ToolResult)
    (toolsUsed : List String) : AgentResponse :=
  let folded := results.foldl (fun acc r =>
      match r with
      | .err t e => (acc.1 ++ "⚠️ " ++ t ++ " failed: " ++ e ++ "\n\n", acc.2)
      | .ok t d _ => (acc.1 ++ formatToolResult env t d, d))
    ("", JVal.null)
  { content := folded.1, data := some folded.2, toolsUsed := toolsUsed }

/-- Embedding of `summarizeResultsWithLLM(results, toolsUsed, originalMessage)`
(lines 177-232).  The prompt built from the results is consumed only by
the LLM collaborator, whose outcome for this turn is `env.llmSummarize`;
a thrown summarization error falls back to the basic formatter.  An empty
summary string is falsy, so `summary || basic.content` then takes the
basic content.  `data` is the single result's data, or the list of all
results' data. -/
def summarizeResultsWithLLM (env : Env) (results : List ToolResult)
    (toolsUsed : List String) (_originalMessage : String) : AgentResponse :=
  if !env.llmConfigured then formatResultsBasic env results toolsUsed
  else
    match env.llmSummarize with
    | .error _ => formatResultsBasic env results toolsUsed
    | .ok summary =>
        { content :=
            if summary = "" then (formatResultsBasic env results toolsUsed).content
            else summary
          data := some (match results with
            | [r] => toolResultData r
            | _ => .arr (results.map toolResultData))
          toolsUsed := toolsUsed }

/-- One `executeTool` call wrapped in the per-call `try`/`catch` of the
scan loop (lines 152-157). -/
def execResult (env : Env) (c : ToolCall) : ToolResult :=
  match env.executeTool c.name c.arguments with
  | .ok d => .ok c.name d (some c.arguments)
  | .error e => .err c.name e.message

/-- Accumulated outcome of the scan loop of `handleToolCalls`. -/
structure ScanOut where
  pendingTool : Option ToolCall
  results : List ToolResult
  toolsUsed : List String
  trace : List (String × JVal)

/-- The scan loop of `handleToolCalls` (lines 142-158): push the call
name, gate-check `requiresApproval(name) && !autoMode`, break on the
first gated call, otherwise execute and record the result. -/
def scanTools (env : Env) (autoMode : Bool) : List ToolCall → ScanOut
  | [] => ⟨none, [], [], []⟩
  | c :: rest =>
      if env.requiresApproval c.name && !autoMode then
        ⟨some c, [], [c.name], []⟩
      else
        let r := execResult env c
        let tail := scanTools env autoMode rest
        ⟨tail.pendingTool, r :: tail.results, c.name :: tail.toolsUsed,
          (c.name, c.arguments) :: tail.trace⟩

/-- Embedding of `handleToolCalls(toolCalls, autoMode, originalMessage)`
(lines 136-172).  The source's post-loop test
`requiresApproval && pendingTool` holds exactly when the scan set a
pending tool, since both flags are set together. -/
def handleToolCalls (env : Env) (toolCalls : List ToolCall) (autoMode : Bool)
    (originalMessage : String) : TurnResult × List (String × JVal) :=
  let s := scanTools env autoMode toolCalls
  match s.pendingTool with
  | some p =>
      (.pending ⟨p.name, p.arguments, getActionDescription p.name p.arguments⟩, s.trace)
  | none =>
      (.response (summarizeResultsWithLLM env s.results s.toolsUsed originalMessage),
        s.trace)

/-- Embedding of `executeApprovedAction(action)` (lines 256-270): execute the named
tool unconditionally; on failure return an error-text response instead of
throwing.  The single result entry `{tool, data}` carries no `args`
field. -/
def executeApprovedAction (env : Env) (action : ApprovedAction) :
    TurnResult × List (String × JVal) :=
  match env.executeTool action.toolName action.toolArguments with
  | .ok result =>
      (.response (summarizeResultsWithLLM env [.ok action.toolName result none]
          [action.toolName] ("Execute " ++ action.toolName)),
        [(action.toolName, action.toolArguments)])
  | .error e =>
      (.response ⟨"❌ Error executing " ++ action.toolName ++ ": " ++ e.message,
          none, [action.toolName]⟩,
        [(action.toolName, action.toolArguments)])

/-- One entry of the fallback pattern table (lines 365-373), with its
regex `(alts1).* (alts2)` split into the two alternative lists. -/
structure RulePattern where
  alts1 : List String
  alts2 : List String
  tool : String
  args : JVal

/-- The ordered fallback pattern table of `handleWithRules`
(lines 365-373). -/
def rulePatterns : List RulePattern :=
  [ ⟨["failed", "error", "fail"], ["batch", "ingestion"], "get_failed_batches",
      .obj [("limit", .num 10)]⟩,
    ⟨["batch"], ["stat", "stats", "statistic"], "get_batch_stats",
      .obj [("timeRange", .str "24h")]⟩,
    ⟨["schema"], ["stat", "stats", "registry"], "get_schema_stats", .obj []⟩,
    ⟨["list", "show", "get"], ["dataset", "data set"], "list_datasets",
      .obj [("limit", .num 10)]⟩,
    ⟨["segment", "audience"], ["stat", "stats", "count", "how many"],
      "get_segment_stats", .obj []⟩,
    ⟨["list", "show", "get"], ["sandbox", "environment"], "list_sandboxes", .obj []⟩,
    ⟨["identity"], ["graph", "link"], "list_namespaces", .obj []⟩ ]

/-- Embedding of `handleWithRules(message)` (lines 362-399).  The source computes
`lowerMsg` but never uses it: each regex carries the `/i` flag and is
tested against the raw message, which `regexTestCI` reflects.  The first
matching pattern executes its tool with its static arguments; an
execution error becomes a plain error line; no match yields the static
help message. -/
def handleWithRules (env : Env) (message : String) :
    AgentResponse × List (String × JVal) :=
  match rulePatterns.find? (fun p => regexTestCI p.alts1 p.alts2 message) with
  | some p =>
      match env.executeTool p.tool p.args with
      | .ok d =>
          (⟨formatToolResult env p.tool d, some d, [p.tool]⟩, [(p.tool, p.args)])
      | .error e =>
          (⟨"❌ Error: " ++ e.message, none, [p.tool]⟩, [(p.tool, p.args)])
  | none => (⟨helpMessage, none, []⟩, [])

/-- Embedding of `history.slice(-20)`, the suffix of the most recent 20 entries. -/
def sliceLast20 (history : List ChatMsg) : List ChatMsg :=
  history.drop (history.length - 20)

/-- The message context built at lines 86-90: system prompt, the stored
(already truncated) chat history projected to `{role, content}`, then the
user message. -/
def buildMessages (chatHistory : List ChatMsg) (message : String) : List ChatMsg :=
  ⟨"system", SYSTEM_PROMPT⟩ ::
    (chatHistory.map (fun m => ⟨m.role, m.content⟩) ++ [⟨"user", message⟩])

/-- Embedding of `processMessage({message, autoMode, history, approvedAction})`
(lines 76-131).  An approved action short-circuits before the history
update.  Otherwise the module-level `chatHistory` is overwritten with the
truncated caller history, the message context is built, and the turn runs
under the `try`: rule fallback when the LLM is unconfigured, otherwise
the LLM round trip; its thrown error is caught and degrades to the rule
fallback when `error.message` is truthy, and is re-thrown when falsy. -/
def processMessage (env : Env) (input : TurnInput) (st : AgentState) : TurnOutput :=
  match input.approvedAction with
  | some action =>
      let r := executeApprovedAction env action
      ⟨r.1, st, r.2⟩
  | none =>
      let st2 : AgentState := ⟨sliceLast20 input.history⟩
      let messages := buildMessages st2.chatHistory input.message
      if !env.llmConfigured then
        let r := handleWithRules env input.message
        ⟨.response r.1, st2, r.2⟩
      else
        match env.llmChat messages with
        | .error e =>
            if e.message ≠ "" then
              let r := handleWithRules env input.message
              ⟨.response r.1, st2, r.2⟩
            else ⟨.thrown e, st2, []⟩
        | .ok turn =>
            if turn.toolCalls.isEmpty then
              ⟨.response ⟨turn.content, none, []⟩, st2, []⟩
            else
              let r := handleToolCalls env turn.toolCalls input.autoMode input.message
              ⟨r.1, st2, r.2⟩

/-- Embedding of `getHistory()` (lines 411-413): reads the module-level state. -/
def getHistory (st : AgentState) : List ChatMsg := st.chatHistory

/-- Embedding of `clearHistory()` (lines 418-420). -/
def clearHistory (_st : AgentState) : AgentState := ⟨[]⟩

/-- Modelled from the spec: the approval flags of the tool registry
(`src/backend/src/agent/tools/index.js` is not among the provided
sources; only its callers are).  The spec states "Write operations
require user approval (unless auto-mode)" and the system prompt forbids
deletion; the action descriptions at lines 346-357 name the
approval-gated tools.  The seven tools bound by the rule fallback table
are read-only queries and carry no approval flag. -/
def specRequiresApproval (name : String) : Bool :=
  name = "execute_sql_query" || name = "generate_pql_from_description" ||
    name = "generate_sql_from_intent" || name = "create_segment"

/-- The `data` accumulator of `formatResultsBasic`: the last successful
result's data, starting from `null`. -/
def lastOkData (results : List ToolResult) : JVal :=
  results.foldl (fun acc r =>
    match r with
    | .ok _ d _ => d
    | .err _ _ => acc) .null

/-- The value of the `data` field of the response produced by
`summarizeResultsWithLLM` for a given result list: the single result's
data, the list of all results' data when the LLM summary succeeds on
several results, and the last successful result's data on the basic
fallback. -/
def summaryData (env : Env) (results : List ToolResult) : JVal :=
  if env.llmConfigured then
    match env.llmSummarize with
    | .ok _ =>
        match results with
        | [r] => toolResultData r
        | _ => .arr (results.map toolResultData)
    | .error _ => lastOkData results
  else lastOkData results

/-- The tool names bound by the rule fallback table, in order. -/
def ruleTools : List String :=
  ["get_failed_batches", "get_batch_stats", "get_schema_stats", "list_datasets",
    "get_segment_stats", "list_sandboxes", "list_namespaces"]

/-- A minimal concrete environment for closed instantiations: no tool
requires approval, every tool returns `null`, and no LLM is
configured. -/
def baseEnv : Env where
  requiresApproval := fun _ => false
  executeTool := fun _ _ => .ok .null
  llmConfigured := false
  llmChat := fun _ => .error ⟨"LLM not configured"⟩
  llmSummarize := .error ⟨"LLM not configured"⟩
  dateLocale := fun _ => ""

end Agent

namespace QueryRoute

/-!
Embedding of the poll loop of the `POST /queries` handler (routes file,
lines 346-383).  Time is logical: the clock advances by exactly
`pollInterval` per sleep (status fetches are instantaneous), matching the
loop's accounting `Date.now() - startTime` up to the duration of the
remote calls themselves.  The sequence of jobs the remote system would
report is a function `fetchStatus : Nat → Job` from fetch index to the
job returned by that fetch.
-/

/-- A query job as the handler inspects it: its id and state.  Further
fields ride along unchanged through the spread `{...result, …}` and are
not modelled. -/
structure Job where
  id : String
  state : String
deriving DecidableEq

/-- The two shapes the handler responds with: a job that left the
non-terminal set, or `{...job, message, polling: true}` after timeout. -/
inductive PollResponse where
  | terminal (j : Job)
  | stillRunning (j : Job) (message : String)
deriving DecidableEq

/-- Observable events of one handler invocation. -/
inductive QEv where
  | submit
  | sleep (ms : Nat)
  | fetch (id : String)
deriving DecidableEq

/-- Embedding of `['SUBMITTED', 'IN_PROGRESS', 'PENDING'].includes(state)`. -/
def nonTerminal (state : String) : Bool :=
  state = "SUBMITTED" || state = "IN_PROGRESS" || state = "PENDING"

/-- Constant `timeout = 30000` (line 366). -/
def timeoutMs : Nat := 30000

/-- The 2000 ms poll interval (line 378). -/
def pollIntervalMs : Nat := 2000

/-- The while loop (lines 369-381): while the state is non-terminal,
return the timeout annotation once elapsed time exceeds `timeout`,
otherwise sleep `pollInterval` and re-fetch.  `n` counts fetches issued
so far; recursion terminates because each iteration adds `pollIntervalMs`
to `elapsed` and the loop returns once `elapsed` exceeds `timeoutMs`. -/
def pollGo (fetchStatus : Nat → Job) (elapsed : Nat) (result : Job) (n : Nat) :
    PollResponse × List QEv :=
  if nonTerminal result.state then
    if elapsed > timeoutMs then
      (.stillRunning result "Query is still running. Check back later.", [])
    else
      let next := fetchStatus n
      let rest := pollGo fetchStatus (elapsed + pollIntervalMs) next (n + 1)
      (rest.1, .sleep pollIntervalMs :: .fetch result.id :: rest.2)
  else (.terminal result, [])
termination_by timeoutMs + 1 - elapsed
decreasing_by simp only [timeoutMs, pollIntervalMs] at *; omega

/-- The poll phase of the `POST /queries` handler, starting from the job
returned by the single `createQuery` submission (lines 362-383).  The
event list records the submission and every sleep and status fetch. -/
def postQueriesPoll (createdQuery : Job) (fetchStatus : Nat → Job) :
    PollResponse × List QEv :=
  let r := pollGo fetchStatus 0 createdQuery 0
  (r.1, QEv.submit :: r.2)

/-- Number of submissions recorded in an event list. -/
def countSubmits (evs : List QEv) : Nat :=
  evs.countP (fun e => e matches QEv.submit)

/-- Total milliseconds slept in an event list. -/
def sleepTotal (evs : List QEv) : Nat :=
  (evs.map (fun e => match e with | QEv.sleep ms => ms | _ => 0)).sum

theorem pollGo_terminal (fetchStatus : Nat → Job) (elapsed : Nat) (result : Job)
    (n : Nat) (h : nonTerminal result.state = false) :
    pollGo fetchStatus elapsed result n = (.terminal result, []) := by
  rw [pollGo]
  simp [h]

theorem pollGo_timeout (fetchStatus : Nat → Job) (elapsed : Nat) (result : Job)
    (n : Nat) (h : nonTerminal result.state = true) (he : elapsed > timeoutMs) :
    pollGo fetchStatus elapsed result n =
      (.stillRunning result "Query is still running. Check back later.", []) := by
  rw [pollGo]
  simp [h, he]

theorem pollGo_step (fetchStatus : Nat → Job) (elapsed : Nat) (result : Job)
    (n : Nat) (h : nonTerminal result.state = true) (he : ¬ elapsed > timeoutMs) :
    pollGo fetchStatus elapsed result n =
      ((pollGo fetchStatus (elapsed + pollIntervalMs) (fetchStatus n) (n + 1)).1,
        .sleep pollIntervalMs :: .fetch result.id ::
          (pollGo fetchStatus (elapsed + pollIntervalMs) (fetchStatus n) (n + 1)).2) := by
  rw [pollGo]
  simp [h, he]

/-- In a never-terminal run the loop returns the still-running
annotation around the most recently fetched job, having slept exactly
`pollInterval * ((timeout - elapsed) / pollInterval + 1)` more
milliseconds, and emits no submission events. -/
theorem pollGo_never (fetchStatus : Nat → Job)
    (hF : ∀ m, nonTerminal (fetchStatus m).state = true) :
    ∀ k elapsed result n, timeoutMs + 1 - elapsed ≤ k →
      nonTerminal result.state = true →
      (pollGo fetchStatus elapsed result n).1 =
        .stillRunning
          (if elapsed > timeoutMs then result
            else fetchStatus (n + (timeoutMs - elapsed) / pollIntervalMs))
          "Query is still running. Check back later." ∧
      sleepTotal (pollGo fetchStatus elapsed result n).2 =
        (if elapsed > timeoutMs then 0
          else pollIntervalMs * ((timeoutMs - elapsed) / pollIntervalMs + 1)) ∧
      countSubmits (pollGo fetchStatus elapsed result n).2 = 0 := by
  intro k
  induction k with
  | zero =>
      intro elapsed result n hk h
      have he : elapsed > timeoutMs := by
        simp only [timeoutMs] at *; omega
      rw [pollGo_timeout fetchStatus elapsed result n h he]
      simp [he, sleepTotal, countSubmits]
  | succ k ih =>
      intro elapsed result n hk h
      by_cases he : elapsed > timeoutMs
      · rw [pollGo_timeout fetchStatus elapsed result n h he]
        simp [he, sleepTotal, countSubmits]
      · rw [pollGo_step fetchStatus elapsed result n h he]
        have hk2 : timeoutMs + 1 - (elapsed + pollIntervalMs) ≤ k := by
          simp only [timeoutMs, pollIntervalMs] at *; omega
        obtain ⟨h1, h2, h3⟩ := ih (elapsed + pollIntervalMs) (fetchStatus n) (n + 1) hk2 (hF n)
        have hidx : (if elapsed + pollIntervalMs > timeoutMs then fetchStatus n
            else fetchStatus ((n + 1) + (timeoutMs - (elapsed + pollIntervalMs)) / pollIntervalMs)) =
            fetchStatus (n + (timeoutMs - elapsed) / pollIntervalMs) := by
          by_cases he2 : elapsed + pollIntervalMs > timeoutMs
          · simp only [he2, if_true]
            congr 1
            simp only [timeoutMs, pollIntervalMs] at *
            omega
          · simp only [he2, if_false]
            congr 1
            simp only [timeoutMs, pollIntervalMs] at *
            omega
        refine ⟨?_, ?_, ?_⟩
        · rw [h1, hidx]
          simp only [he, if_false]
        · simp only [sleepTotal, List.map_cons, List.sum_cons] at h2 ⊢
          rw [h2]
          by_cases he2 : elapsed + pollIntervalMs > timeoutMs
          · simp only [he2, if_true, he, if_false]
            simp only [timeoutMs, pollIntervalMs] at *
            omega
          · simp only [he2, if_false, he]
            simp only [timeoutMs, pollIntervalMs] at *
            omega
        · simp only [countSubmits, List.countP_cons] at h3 ⊢
          simp [h3, countSubmits]

/-- The poll loop itself never submits, whatever the job states. -/
theorem pollGo_no_submit (fetchStatus : Nat → Job) :
    ∀ k elapsed result n, timeoutMs + 1 - elapsed ≤ k →
      countSubmits (pollGo fetchStatus elapsed result n).2 = 0 := by
  intro k
  induction k with
  | zero =>
      intro elapsed result n hk
      by_cases h : nonTerminal result.state
      · have he : elapsed > timeoutMs := by
          simp only [timeoutMs] at *; omega
        rw [pollGo_timeout fetchStatus elapsed result n h he]
        simp [countSubmits]
      · rw [pollGo_terminal fetchStatus elapsed result n (by simpa using h)]
        simp [countSubmits]
  | succ k ih =>
      intro elapsed result n hk
      by_cases h : nonTerminal result.state
      · by_cases he : elapsed > timeoutMs
        · rw [pollGo_timeout fetchStatus elapsed result n h he]
          simp [countSubmits]
        · rw [pollGo_step fetchStatus elapsed result n h he]
          have hk2 : timeoutMs + 1 - (elapsed + pollIntervalMs) ≤ k := by
            simp only [timeoutMs, pollIntervalMs] at *; omega
          have := ih (elapsed + pollIntervalMs) (fetchStatus n) (n + 1) hk2
          simp only [countSubmits, List.countP_cons] at this ⊢
          simp [this]
      · rw [pollGo_terminal fetchStatus elapsed result n (by simpa using h)]
        simp [countSubmits]

end QueryRoute

namespace Agent

/-- A scan in which no call trips the approval gate executes every call
in order and reports no pending tool. -/
theorem scanTools_no_approval (env : Env) (autoMode : Bool) :
    ∀ toolCalls : List ToolCall,
      (∀ c ∈ toolCalls, (env.requiresApproval c.name && !autoMode) = false) →
      scanTools env autoMode toolCalls =
        ⟨none, toolCalls.map (execResult env), toolCalls.map (fun c => c.name),
          toolCalls.map (fun c => (c.name, c.arguments))⟩ := by
  intro toolCalls
  induction toolCalls with
  | nil => intro _; rfl
  | cons c rest ih =>
      intro h
      have hc := h c (by simp)
      have hrest := ih (fun x hx => h x (by simp [hx]))
      simp only [scanTools, hc, if_false, hrest]
      simp

/-- The scan halts at the first gate-tripping call: the preceding calls
are executed in order and the tripping call is reported pending. -/
theorem scanTools_halt (env : Env) (autoMode : Bool) (c : ToolCall) :
    ∀ pre post : List ToolCall,
      (∀ x ∈ pre, (env.requiresApproval x.name && !autoMode) = false) →
      (env.requiresApproval c.name && !autoMode) = true →
      scanTools env autoMode (pre ++ c :: post) =
        ⟨some c, pre.map (execResult env), pre.map (fun x => x.name) ++ [c.name],
          pre.map (fun x => (x.name, x.arguments))⟩ := by
  intro pre
  induction pre with
  | nil =>
      intro post _ hc
      simp only [List.nil_append, scanTools, hc, if_true]
      simp
  | cons x rest ih =>
      intro post hpre hc
      have hx := hpre x (by simp)
      have hrest := ih post (fun y hy => hpre y (by simp [hy])) hc
      simp only [List.cons_append, scanTools]
      rw [hx]
      simp [hrest]

/-- Every tool invocation recorded by the scan passed the approval
gate. -/
theorem scanTools_trace_gate (env : Env) (autoMode : Bool) :
    ∀ toolCalls : List ToolCall, ∀ p ∈ (scanTools env autoMode toolCalls).trace,
      (env.requiresApproval p.1 && !autoMode) = false := by
  intro toolCalls
  induction toolCalls with
  | nil => intro p hp; simp [scanTools] at hp
  | cons c rest ih =>
      intro p hp
      by_cases hc : (env.requiresApproval c.name && !autoMode) = true
      · simp only [scanTools, hc, if_true] at hp
        simp at hp
      · have hc2 : (env.requiresApproval c.name && !autoMode) = false := by
          revert hc; cases env.requiresApproval c.name && !autoMode <;> simp
        simp only [scanTools, hc2, if_false] at hp
        rcases List.mem_cons.mp hp with hpe | hpm
        · rw [hpe]; exact hc2
        · exact ih p hpm

/-- Function `handleToolCalls` passes the scan trace through unchanged. -/
theorem handleToolCalls_trace (env : Env) (toolCalls : List ToolCall)
    (autoMode : Bool) (originalMessage : String) :
    (handleToolCalls env toolCalls autoMode originalMessage).2 =
      (scanTools env autoMode toolCalls).trace := by
  unfold handleToolCalls
  cases h : (scanTools env autoMode toolCalls).pendingTool <;> simp [h]

/-- The pair folded by `formatResultsBasic` keeps, in its second slot,
exactly the `lastOkData` accumulator. -/
theorem formatResultsBasic_fold_data (env : Env) :
    ∀ (results : List ToolResult) (s : String) (acc : JVal),
      (results.foldl (fun acc r =>
          match r with
          | .err t e => (acc.1 ++ "⚠️ " ++ t ++ " failed: " ++ e ++ "\n\n", acc.2)
          | .ok t d _ => (acc.1 ++ formatToolResult env t d, d)) (s, acc)).2 =
        results.foldl (fun acc r =>
          match r with
          | .ok _ d _ => d
          | .err _ _ => acc) acc := by
  intro results
  induction results with
  | nil => intro s acc; rfl
  | cons r rest ih =>
      intro s acc
      cases r with
      | ok t d args => simpa using ih (s ++ formatToolResult env t d) d
      | err t e => simpa using ih (s ++ "⚠️ " ++ t ++ " failed: " ++ e ++ "\n\n") acc

/-- The `data` field of the basic formatter is the last successful
result's data. -/
theorem formatResultsBasic_data (env : Env) (results : List ToolResult)
    (toolsUsed : List String) :
    (formatResultsBasic env results toolsUsed).data = some (lastOkData results) := by
  unfold formatResultsBasic lastOkData
  simp only [formatResultsBasic_fold_data]

/-- The basic formatter echoes `toolsUsed`. -/
theorem formatResultsBasic_toolsUsed (env : Env) (results : List ToolResult)
    (toolsUsed : List String) :
    (formatResultsBasic env results toolsUsed).toolsUsed = toolsUsed := rfl

/-- The summarizer echoes `toolsUsed` and produces the `data` field
described by `summaryData`. -/
theorem summarizeResultsWithLLM_fields (env : Env) (results : List ToolResult)
    (toolsUsed : List String) (originalMessage : String) :
    (summarizeResultsWithLLM env results toolsUsed originalMessage).toolsUsed = toolsUsed ∧
      (summarizeResultsWithLLM env results toolsUsed originalMessage).data =
        some (summaryData env results) := by
  unfold summarizeResultsWithLLM summaryData
  by_cases hc : env.llmConfigured
  · simp only [hc, Bool.not_true, Bool.false_eq_true, if_false, if_true]
    cases env.llmSummarize with
    | error e => exact ⟨formatResultsBasic_toolsUsed env results toolsUsed,
        formatResultsBasic_data env results toolsUsed⟩
    | ok summary =>
        refine ⟨rfl, ?_⟩
        cases results with
        | nil => rfl
        | cons r rest => cases rest <;> rfl
  · have hc2 : env.llmConfigured = false := by simpa using hc
    simp only [hc2, Bool.not_false, if_true, Bool.false_eq_true, if_false]
    exact ⟨formatResultsBasic_toolsUsed env results toolsUsed,
      formatResultsBasic_data env results toolsUsed⟩

/-- Every tool the rule fallback executes is one of the seven read-only
tools of the pattern table. -/
theorem handleWithRules_trace_tools (env : Env) (message : String) :
    ∀ p ∈ (handleWithRules env message).2, p.1 ∈ ruleTools := by
  intro p hp
  unfold handleWithRules at hp
  cases hf : rulePatterns.find? (fun q => regexTestCI q.alts1 q.alts2 message) with
  | none => rw [hf] at hp; simp at hp
  | some q =>
      rw [hf] at hp
      have hq : q ∈ rulePatterns := List.mem_of_find?_eq_some hf
      have htool : q.tool ∈ ruleTools := by
        simp only [rulePatterns, List.mem_cons, List.not_mem_nil, or_false] at hq
        rcases hq with h | h | h | h | h | h | h <;> (rw [h]; simp [ruleTools])
      cases he : env.executeTool q.tool q.args with
      | ok d =>
          simp only [he, List.mem_singleton] at hp
          rw [hp]
          exact htool
      | error e =>
          simp only [he, List.mem_singleton] at hp
          rw [hp]
          exact htool

/-- None of the seven rule-fallback tools carries the spec-modelled
approval flag. -/
theorem ruleTools_no_approval : ∀ t ∈ ruleTools, specRequiresApproval t = false := by
  decide

/-- Truncation is idempotent: a list of at most 20 entries is returned
whole. -/
theorem sliceLast20_idem (h : List ChatMsg) :
    sliceLast20 (sliceLast20 h) = sliceLast20 h := by
  unfold sliceLast20
  have hl : (h.drop (h.length - 20)).length ≤ 20 := by
    rw [List.length_drop]
    omega
  rw [Nat.sub_eq_zero_of_le hl, List.drop_zero]

/-- The possible shapes of the execution trace of a turn without an
approved action: the rule-fallback trace, the empty trace, or the scan
trace of the tool calls the LLM returned. -/
theorem processMessage_trace_cases (env : Env) (msg : String) (am : Bool)
    (hist : List ChatMsg) (st : AgentState) :
    (processMessage env ⟨msg, am, hist, none⟩ st).trace = (handleWithRules env msg).2 ∨
    (processMessage env ⟨msg, am, hist, none⟩ st).trace = [] ∨
    ∃ turn, env.llmChat (buildMessages (sliceLast20 hist) msg) = .ok turn ∧
      (processMessage env ⟨msg, am, hist, none⟩ st).trace =
        (scanTools env am turn.toolCalls).trace := by
  unfold processMessage
  by_cases hc : env.llmConfigured
  · simp only [hc, Bool.not_true, Bool.false_eq_true, if_false]
    cases hchat : env.llmChat (buildMessages (sliceLast20 hist) msg) with
    | error e =>
        by_cases hmsg : e.message = ""
        · right; left
          simp [hmsg]
        · left
          simp [hmsg]
    | ok turn =>
        by_cases hne : turn.toolCalls.isEmpty
        · right; left
          simp [hne]
        · right; right
          refine ⟨turn, rfl, ?_⟩
          have hne2 : turn.toolCalls.isEmpty = false := by simpa using hne
          simp [hne2, handleToolCalls_trace]
  · have hc2 : env.llmConfigured = false := by simpa using hc
    left
    simp [hc2]

/-- Claim C1: with auto-mode false, if the k-th tool call returned by the
LLM is the first whose tool requires approval (here: the calls split as
`pre ++ c :: post` with `pre` approval-free, so k = |pre| + 1), the turn
returns the pending-approval response carrying that call's name and
arguments (with its action description); only the calls before it are
executed (`post` and `c` itself are never attempted), and the response is
independent of the tool executor — the results gathered from the earlier
calls are discarded. -/
theorem processMessage_halts_at_first_approval (env : Env) (msg : String)
    (hist : List ChatMsg) (st : AgentState) (turn : LlmTurn)
    (pre post : List ToolCall) (c : ToolCall)
    (hconf : env.llmConfigured = true)
    (hchat : env.llmChat (buildMessages (sliceLast20 hist) msg) = .ok turn)
    (htc : turn.toolCalls = pre ++ c :: post)
    (hpre : ∀ x ∈ pre, env.requiresApproval x.name = false)
    (happ : env.requiresApproval c.name = true) :
    processMessage env ⟨msg, false, hist, none⟩ st =
      ⟨.pending ⟨c.name, c.arguments, getActionDescription c.name c.arguments⟩,
        ⟨sliceLast20 hist⟩, pre.map (fun x => (x.name, x.arguments))⟩ ∧
    ∀ exec2, (processMessage { env with executeTool := exec2 }
        ⟨msg, false, hist, none⟩ st).result =
      .pending ⟨c.name, c.arguments, getActionDescription c.name c.arguments⟩ := by
  have key : ∀ env2 : Env, env2.requiresApproval = env.requiresApproval →
      env2.llmConfigured = true →
      env2.llmChat (buildMessages (sliceLast20 hist) msg) = .ok turn →
      processMessage env2 ⟨msg, false, hist, none⟩ st =
        ⟨.pending ⟨c.name, c.arguments, getActionDescription c.name c.arguments⟩,
          ⟨sliceLast20 hist⟩, pre.map (fun x => (x.name, x.arguments))⟩ := by
    intro env2 hra hconf2 hchat2
    have hscan := scanTools_halt env2 false c pre post
      (fun x hx => by
        rw [Bool.not_false, Bool.and_true, hra]
        exact hpre x hx)
      (by rw [Bool.not_false, Bool.and_true, hra]; exact happ)
    have hne : turn.toolCalls.isEmpty = false := by
      rw [htc]; cases pre <;> rfl
    unfold processMessage
    simp only [hconf2, Bool.not_true, Bool.false_eq_true, if_false, hchat2, hne]
    unfold handleToolCalls
    rw [htc, hscan]
  refine ⟨key env rfl hconf hchat, fun exec2 => ?_⟩
  rw [key { env with executeTool := exec2 } rfl hconf hchat]

/-- Witness for C1: a three-call sequence whose middle call is the first
requiring approval returns the pending response for that call, having
executed only the first one. -/
theorem processMessage_halts_at_first_approval_witness :
    processMessage
        { baseEnv with
          requiresApproval := fun n => n = "execute_sql_query"
          llmConfigured := true
          llmChat := fun _ => .ok
            ⟨[⟨"get_failed_batches", .null⟩, ⟨"execute_sql_query", .null⟩,
              ⟨"list_datasets", .null⟩], ""⟩ }
        ⟨"m", false, [], none⟩ ⟨[]⟩ =
      ⟨.pending ⟨"execute_sql_query", .null,
          getActionDescription "execute_sql_query" JVal.null⟩,
        ⟨[]⟩, [("get_failed_batches", JVal.null)]⟩ := by
  exact (processMessage_halts_at_first_approval _ "m" [] ⟨[]⟩
    ⟨[⟨"get_failed_batches", .null⟩, ⟨"execute_sql_query", .null⟩,
      ⟨"list_datasets", .null⟩], ""⟩
    [⟨"get_failed_batches", .null⟩] [⟨"list_datasets", .null⟩]
    ⟨"execute_sql_query", .null⟩ rfl rfl rfl
    (fun x hx => by
      rw [List.mem_singleton] at hx
      subst hx
      rfl)
    rfl).1

/-- Claim C2 (counterexample): on the approved-action path a tool that
requires approval under the spec-modelled registry executes even though
auto-mode is false — the caller-echoed approved action is run without
consulting the gate. -/
theorem approvedAction_bypasses_gate :
    (processMessage { baseEnv with requiresApproval := specRequiresApproval }
        ⟨"please run it", false, [],
          some ⟨"execute_sql_query", .null⟩⟩ ⟨[]⟩).trace =
      [("execute_sql_query", JVal.null)] ∧
    specRequiresApproval "execute_sql_query" = true := ⟨rfl, rfl⟩

/-- Claim C2 (amended): on every turn without an approved action — the
tool-call scan and the rule-based fallback — no tool executes when it
requires approval under the spec-modelled registry and auto-mode is
false; the approved-action path, by contrast, executes its tool
unconditionally, the approval round trip itself standing in for the
gate. -/
theorem gate_respected_without_approved_action (env : Env) (msg : String)
    (am : Bool) (hist : List ChatMsg) (st : AgentState)
    (hra : env.requiresApproval = specRequiresApproval) :
    ∀ p ∈ (processMessage env ⟨msg, am, hist, none⟩ st).trace,
      (specRequiresApproval p.1 && !am) = false := by
  intro p hp
  rcases processMessage_trace_cases env msg am hist st with h | h | ⟨turn, hchat, h⟩
  · rw [h] at hp
    have ht := handleWithRules_trace_tools env msg p hp
    have hfalse := ruleTools_no_approval p.1 ht
    simp [hfalse]
  · rw [h] at hp
    simp at hp
  · rw [h] at hp
    have hg := scanTools_trace_gate env am turn.toolCalls p hp
    rw [hra] at hg
    exact hg

/-- Witness for C2 (amended): the rule-fallback turn for "show me failed
batches" executes only `get_failed_batches`, which passes the
spec-modelled gate. -/
theorem gate_respected_without_approved_action_witness :
    (specRequiresApproval "get_failed_batches" && !false) = false := by
  have h := gate_respected_without_approved_action
    { baseEnv with requiresApproval := specRequiresApproval }
    "show me failed batches" false [] ⟨[]⟩ rfl
  refine h ("get_failed_batches", JVal.obj [("limit", JVal.num 10)]) ?_
  have ht : (processMessage { baseEnv with requiresApproval := specRequiresApproval }
      ⟨"show me failed batches", false, [], none⟩ ⟨[]⟩).trace =
      [("get_failed_batches", JVal.obj [("limit", JVal.num 10)])] := rfl
  rw [ht]
  exact List.mem_singleton.mpr rfl

/-- Claim C3 (counterexample): with two approval-free tool calls and a
successful LLM summary, the response's `data` field is the ordered list
of both tools' results — not the last tool's result, as the claim
states. -/
theorem multi_tool_data_is_full_list :
    (processMessage
        { baseEnv with
          llmConfigured := true
          llmChat := fun _ => .ok ⟨[⟨"t1", .null⟩, ⟨"t2", .null⟩], ""⟩
          executeTool := fun n _ => if n = "t1" then .ok (.num 1) else .ok (.num 2)
          llmSummarize := .ok "S" }
        ⟨"m", false, [], none⟩ ⟨[]⟩).result =
      .response ⟨"S", some (.arr [.num 1, .num 2]), ["t1", "t2"]⟩ ∧
    JVal.arr [.num 1, .num 2] ≠ JVal.num 2 := by
  refine ⟨rfl, fun h => ?_⟩
  exact JVal.noConfusion h

/-- Claim C3 (amended): for a tool-call sequence with no member tripping
the approval gate, the final response's `toolsUsed` equals the call names
in original order, and its `data` field is described by `summaryData`:
the sole call's result when exactly one call ran, the ordered list of all
calls' results when the LLM summary handles several, and the last
successful call's result on the basic-formatter path. -/
theorem processMessage_toolsUsed_and_data (env : Env) (msg : String) (am : Bool)
    (hist : List ChatMsg) (st : AgentState) (turn : LlmTurn)
    (hconf : env.llmConfigured = true)
    (hchat : env.llmChat (buildMessages (sliceLast20 hist) msg) = .ok turn)
    (hne : turn.toolCalls ≠ [])
    (hsafe : ∀ x ∈ turn.toolCalls, (env.requiresApproval x.name && !am) = false) :
    ∃ r : AgentResponse,
      (processMessage env ⟨msg, am, hist, none⟩ st).result = .response r ∧
      r.toolsUsed = turn.toolCalls.map (fun c => c.name) ∧
      r.data = some (summaryData env (turn.toolCalls.map (execResult env))) := by
  have hscan := scanTools_no_approval env am turn.toolCalls hsafe
  have hne2 : turn.toolCalls.isEmpty = false := by
    cases h : turn.toolCalls with
    | nil => exact absurd h hne
    | cons a l => rfl
  refine ⟨summarizeResultsWithLLM env (turn.toolCalls.map (execResult env))
    (turn.toolCalls.map (fun c => c.name)) msg, ?_, ?_, ?_⟩
  · unfold processMessage
    simp only [hconf, Bool.not_true, Bool.false_eq_true, if_false, hchat, hne2]
    unfold handleToolCalls
    rw [hscan]
  · exact (summarizeResultsWithLLM_fields env _ _ msg).1
  · exact (summarizeResultsWithLLM_fields env _ _ msg).2

/-- Witness for C3 (amended): a single approval-free call on the
unconfigured-summarizer path yields `toolsUsed = ["t1"]` and the tool's
own result as `data`. -/
theorem processMessage_toolsUsed_and_data_witness :
    ∃ r : AgentResponse,
      (processMessage
          { baseEnv with
            llmConfigured := true
            llmChat := fun _ => .ok ⟨[⟨"t1", .null⟩], ""⟩
            executeTool := fun _ _ => .ok (.num 7) }
          ⟨"m", false, [], none⟩ ⟨[]⟩).result = .response r ∧
      r.toolsUsed = ["t1"] ∧
      r.data = some (summaryData
        { baseEnv with
          llmConfigured := true
          llmChat := fun _ => .ok ⟨[⟨"t1", .null⟩], ""⟩
          executeTool := fun _ _ => .ok (.num 7) }
        ([⟨"t1", JVal.null⟩].map (execResult
          { baseEnv with
            llmConfigured := true
            llmChat := fun _ => .ok ⟨[⟨"t1", .null⟩], ""⟩
            executeTool := fun _ _ => .ok (.num 7) }))) := by
  exact processMessage_toolsUsed_and_data _ "m" false [] ⟨[]⟩ ⟨[⟨"t1", .null⟩], ""⟩
    rfl rfl (by simp)
    (fun x hx => by
      rw [List.mem_singleton] at hx
      subst hx
      rfl)

/-- Claim C5 (counterexample): the module-level `chatHistory` binding is
overwritten by a turn and survives it — after a turn with a one-entry
caller history, the stored state differs from the pre-turn state and
`getHistory` exposes the persisted entry. -/
theorem chatHistory_persists_across_turns :
    (processMessage baseEnv ⟨"hello", false, [⟨"user", "hi"⟩], none⟩ ⟨[]⟩).state ≠
      (⟨[]⟩ : AgentState) ∧
    getHistory (processMessage baseEnv
        ⟨"hello", false, [⟨"user", "hi"⟩], none⟩ ⟨[]⟩).state = [⟨"user", "hi"⟩] := by
  have hstate : (processMessage baseEnv
      ⟨"hello", false, [⟨"user", "hi"⟩], none⟩ ⟨[]⟩).state =
      ⟨[⟨"user", "hi"⟩]⟩ := rfl
  refine ⟨?_, ?_⟩
  · rw [hstate]
    decide
  · rw [hstate]
    rfl

/-- Claim C5 (amended): the stored module state never influences a
turn — the response and the executed tools are identical whatever
`chatHistory` held before the call, all conversational continuity coming
from the caller-supplied inputs — but the module-level `chatHistory`
itself does persist across turns (see the counterexample). -/
theorem response_independent_of_stored_state (env : Env) (input : TurnInput)
    (st st2 : AgentState) :
    (processMessage env input st).result = (processMessage env input st2).result ∧
    (processMessage env input st).trace = (processMessage env input st2).trace := by
  cases input with
  | mk msg am hist aa => cases aa <;> exact ⟨rfl, rfl⟩

/-- The module state left behind by a turn without an approved action is
always the truncated caller history. -/
theorem processMessage_state_none (env : Env) (msg : String) (am : Bool)
    (hist : List ChatMsg) (st : AgentState) :
    (processMessage env ⟨msg, am, hist, none⟩ st).state = ⟨sliceLast20 hist⟩ := by
  unfold processMessage
  by_cases hc : env.llmConfigured
  · simp only [hc, Bool.not_true, Bool.false_eq_true, if_false]
    cases hchat : env.llmChat (buildMessages (sliceLast20 hist) msg) with
    | error e => by_cases hm : e.message = "" <;> simp [hm]
    | ok turn => by_cases hne : turn.toolCalls.isEmpty <;> simp [hne]
  · have hc2 : env.llmConfigured = false := by simpa using hc
    simp [hc2]

/-- Claim C6: the caller-supplied history is truncated to its most
recent 20 entries before any use — the turn is indistinguishable from
one that received only those 20 entries, the history used internally
never exceeds 20 entries, and for a history longer than 20 the used part
is a 20-entry suffix of it. -/
theorem history_truncated_to_20 (env : Env) (msg : String) (am : Bool)
    (hist : List ChatMsg) (st : AgentState) :
    processMessage env ⟨msg, am, hist, none⟩ st =
      processMessage env ⟨msg, am, sliceLast20 hist, none⟩ st ∧
    (sliceLast20 hist).length ≤ 20 ∧
    (processMessage env ⟨msg, am, hist, none⟩ st).state.chatHistory = sliceLast20 hist ∧
    (hist.length > 20 →
      (sliceLast20 hist).length = 20 ∧ ∃ dropped, hist = dropped ++ sliceLast20 hist) := by
  refine ⟨?_, ?_, ?_, fun hlen => ⟨?_, ?_⟩⟩
  · unfold processMessage
    rw [sliceLast20_idem]
  · unfold sliceLast20
    rw [List.length_drop]
    omega
  · rw [processMessage_state_none]
  · unfold sliceLast20
    rw [List.length_drop]
    omega
  · exact ⟨hist.take (hist.length - 20), (List.take_append_drop _ _).symm⟩

/-- Witness for C6: a 21-entry history is truncated to its last 20
entries, which is what the turn stores. -/
theorem history_truncated_to_20_witness :
    (sliceLast20 (List.replicate 21 (⟨"user", "hi"⟩ : ChatMsg))).length = 20 ∧
    (processMessage baseEnv
        ⟨"hello", false, List.replicate 21 ⟨"user", "hi"⟩, none⟩ ⟨[]⟩).state.chatHistory =
      sliceLast20 (List.replicate 21 ⟨"user", "hi"⟩) := by
  have h := history_truncated_to_20 baseEnv "hello" false
    (List.replicate 21 ⟨"user", "hi"⟩) ⟨[]⟩
  exact ⟨(h.2.2.2 (by simp)).1, h.2.2.1⟩

/-- Claim C7 (counterexample): an LLM error whose `message` is the empty
string (falsy) is re-thrown by the `catch` block instead of degrading to
the rule-based fallback — the turn surfaces a hard failure. -/
theorem empty_message_error_rethrown :
    (processMessage
        { baseEnv with llmConfigured := true, llmChat := fun _ => .error ⟨""⟩ }
        ⟨"hi", false, [], none⟩ ⟨[]⟩).result = .thrown ⟨""⟩ := rfl

/-- Claim C7 (amended): an LLM error with a non-empty (truthy) message is
caught at the orchestrator boundary and silently degrades to the
rule-based fallback; if additionally no fallback pattern matches, the
response is the generic help message, not an error.  (An error with an
empty message is re-thrown — see the counterexample.) -/
theorem llm_error_degrades_to_rules (env : Env) (msg : String) (am : Bool)
    (hist : List ChatMsg) (st : AgentState) (e : JsError)
    (hconf : env.llmConfigured = true)
    (hchat : env.llmChat (buildMessages (sliceLast20 hist) msg) = .error e)
    (hmsg : e.message ≠ "") :
    (processMessage env ⟨msg, am, hist, none⟩ st).result =
      .response (handleWithRules env msg).1 ∧
    ((∀ p ∈ rulePatterns, regexTestCI p.alts1 p.alts2 msg = false) →
      (processMessage env ⟨msg, am, hist, none⟩ st).result =
        .response ⟨helpMessage, none, []⟩) := by
  have h1 : (processMessage env ⟨msg, am, hist, none⟩ st).result =
      .response (handleWithRules env msg).1 := by
    unfold processMessage
    simp only [hconf, Bool.not_true, Bool.false_eq_true, if_false, hchat]
    simp [hmsg]
  refine ⟨h1, fun hnone => ?_⟩
  rw [h1]
  have hfind : rulePatterns.find? (fun p => regexTestCI p.alts1 p.alts2 msg) = none :=
    List.find?_eq_none.mpr (fun p hp => by simp [hnone p hp])
  unfold handleWithRules
  rw [hfind]

/-- Witness for C7 (amended): a turn whose LLM throws "boom" on the
unmatched message "hello there" returns the static help message. -/
theorem llm_error_degrades_to_rules_witness :
    (processMessage
        { baseEnv with llmConfigured := true, llmChat := fun _ => .error ⟨"boom"⟩ }
        ⟨"hello there", false, [], none⟩ ⟨[]⟩).result =
      .response ⟨helpMessage, none, []⟩ := by
  exact (llm_error_degrades_to_rules _ "hello there" false [] ⟨[]⟩ ⟨"boom"⟩
    rfl rfl (by decide)).2 (by decide)

/-- Claim C8: with no LLM configured, the message "show me failed
batches" is matched by the first fallback pattern, `get_failed_batches`
runs with its static arguments, and a `{batches: []}` result produces
exactly the smooth-ingestion content. -/
theorem failed_batches_fallback_exact :
    processMessage
        { baseEnv with executeTool := fun n _ =>
            if n = "get_failed_batches" then .ok (.obj [("batches", .arr [])])
            else .error ⟨"unexpected tool"⟩ }
        ⟨"show me failed batches", false, [], none⟩ ⟨[]⟩ =
      ⟨.response
          ⟨"✅ **Great news!** No failed batches found. Your ingestion is running smoothly!\n",
            some (.obj [("batches", .arr [])]), ["get_failed_batches"]⟩,
        ⟨[]⟩, [("get_failed_batches", .obj [("limit", .num 10)])]⟩ ∧
    regexTestCI ["failed", "error", "fail"] ["batch", "ingestion"]
      "show me failed batches" = true ∧
    rulePatterns.find?
        (fun p => regexTestCI p.alts1 p.alts2 "show me failed batches") =
      some ⟨["failed", "error", "fail"], ["batch", "ingestion"],
        "get_failed_batches", .obj [("limit", .num 10)]⟩ :=
  ⟨rfl, rfl, rfl⟩

/-- The listing fold of the default formatter branch appends exactly the
scalar lines of the listed keys to its accumulator. -/
theorem formatDefault_fold (data : JVal) :
    ∀ (keys : List String) (acc : String),
      keys.foldl (fun acc key =>
          let val := getField data key
          if !typeofIsObject val then
            acc ++ "• " ++ key ++ ": " ++ jsTemplate val ++ "\n"
          else acc) acc =
        acc ++ scalarLines data keys := by
  intro keys
  induction keys with
  | nil =>
      intro acc
      simp [scalarLines, String.append_empty]
  | cons k rest ih =>
      intro acc
      by_cases hk : typeofIsObject (getField data k)
      · simp only [List.foldl_cons, scalarLines, hk, Bool.not_true, Bool.false_eq_true,
          if_false]
        rw [ih]
        rw [String.empty_append]
      · have hk2 : typeofIsObject (getField data k) = false := by simpa using hk
        simp only [List.foldl_cons, scalarLines, hk2, Bool.not_false, if_true]
        rw [ih]
        simp [String.append_assoc]

/-- Claim C9 (counterexample): a tool result whose data has six scalar
top-level fields gets the bare success line from the default formatter —
not a `key: value` listing — although all of its fields are scalar. -/
theorem six_scalar_fields_bare_success :
    formatToolResult baseEnv "mystery_tool"
        (.obj [("a", .num 1), ("b", .num 2), ("c", .num 3),
          ("d", .num 4), ("e", .num 5), ("f", .num 6)]) =
      "✅ **mystery_tool** completed successfully.\n" ∧
    (keysOf (JVal.obj [("a", .num 1), ("b", .num 2), ("c", .num 3),
      ("d", .num 4), ("e", .num 5), ("f", .num 6)])).length = 6 ∧
    (keysOf (JVal.obj [("a", .num 1), ("b", .num 2), ("c", .num 3),
        ("d", .num 4), ("e", .num 5), ("f", .num 6)])).all
      (fun k => !typeofIsObject (getField (JVal.obj [("a", .num 1), ("b", .num 2),
        ("c", .num 3), ("d", .num 4), ("e", .num 5), ("f", .num 6)]) k)) = true :=
  ⟨rfl, rfl, rfl⟩

/-- Claim C9 (amended): a tool name not matched by a known case reaches
the default branch, which produces a `📦` header plus one `key: value`
line per scalar top-level field when the data is an object with at most
5 keys in total, and the bare success line otherwise (even when scalar
fields exist among more than 5 keys); when none of the listed fields is
scalar the result is the bare header with no lines, not the success
line. -/
theorem default_formatter_characterization (env : Env) (toolName : String) (data : JVal)
    (hname : toolName ∉ ["get_failed_batches", "get_segment_stats",
      "analyze_batch_errors", "get_identity_graph"]) :
    formatToolResult env toolName data = formatDefault toolName data ∧
    (isObjectLike data = true → (keysOf data).length ≤ 5 →
      formatDefault toolName data =
        "📦 **" ++ toolName ++ " completed:**\n" ++
          scalarLines data ((keysOf data).take 5)) ∧
    (isObjectLike data = false ∨ 5 < (keysOf data).length →
      formatDefault toolName data =
        "✅ **" ++ toolName ++ "** completed successfully.\n") ∧
    (∀ keys : List String, (∀ k ∈ keys, typeofIsObject (getField data k) = true) →
      scalarLines data keys = "") := by
  simp only [List.mem_cons, List.not_mem_nil, or_false, not_or] at hname
  obtain ⟨h1, h2, h3, h4⟩ := hname
  refine ⟨?_, ?_, ?_, ?_⟩
  · unfold formatToolResult
    rw [if_neg h1, if_neg h2, if_neg h3, if_neg h4]
  · intro hobj hlen
    unfold formatDefault
    rw [if_pos (by simp [hobj, hlen])]
    exact formatDefault_fold data ((keysOf data).take 5) _
  · intro hcase
    unfold formatDefault
    rw [if_neg ?_]
    rcases hcase with hobj | hlen
    · simp [hobj]
    · simp
      omega
  · intro keys hall
    induction keys with
    | nil => rfl
    | cons k rest ih =>
        have hk := hall k (by simp)
        simp only [scalarLines, hk, Bool.not_true, Bool.false_eq_true, if_false]
        rw [String.empty_append]
        exact ih (fun x hx => hall x (by simp [hx]))

/-- Witness for C9 (amended): an unknown tool with one scalar and one
object field yields the header and the single scalar line. -/
theorem default_formatter_characterization_witness :
    formatToolResult baseEnv "mystery_tool"
        (.obj [("a", .num 1), ("b", .obj [])]) =
      "📦 **mystery_tool completed:**\n• a: 1\n" := by
  have h := default_formatter_characterization baseEnv "mystery_tool"
    (.obj [("a", .num 1), ("b", .obj [])]) (by decide)
  rw [h.1, h.2.1 rfl (by decide)]
  rfl

/-- Claim C10: a turn carrying an approved action immediately executes
exactly the named tool with the given arguments — independent of the
approval gate, the auto-mode flag, the message and the history, with no
check against previously issued pending actions — leaves the stored chat
history unchanged, and turns an execution failure into an error-text
response instead of a thrown error. -/
theorem approved_action_semantics (env : Env) (a : ApprovedAction) (msg : String)
    (am : Bool) (hist : List ChatMsg) (st : AgentState) :
    processMessage env ⟨msg, am, hist, some a⟩ st =
      ⟨(executeApprovedAction env a).1, st, [(a.toolName, a.toolArguments)]⟩ ∧
    (∀ (msg2 : String) (am2 : Bool) (hist2 : List ChatMsg) (rA2 : String → Bool),
      processMessage { env with requiresApproval := rA2 }
          ⟨msg2, am2, hist2, some a⟩ st =
        processMessage env ⟨msg, am, hist, some a⟩ st) ∧
    (∀ e, env.executeTool a.toolName a.toolArguments = .error e →
      (processMessage env ⟨msg, am, hist, some a⟩ st).result =
        .response ⟨"❌ Error executing " ++ a.toolName ++ ": " ++ e.message,
          none, [a.toolName]⟩) ∧
    (∀ d, env.executeTool a.toolName a.toolArguments = .ok d →
      (processMessage env ⟨msg, am, hist, some a⟩ st).result =
        .response (summarizeResultsWithLLM env [.ok a.toolName d none]
          [a.toolName] ("Execute " ++ a.toolName))) := by
  refine ⟨?_, fun _ _ _ _ => rfl, fun e he => ?_, fun d hd => ?_⟩
  · unfold processMessage executeApprovedAction
    cases he : env.executeTool a.toolName a.toolArguments <;> simp [he]
  · simp [processMessage, executeApprovedAction, he]
  · simp [processMessage, executeApprovedAction, hd]

/-- Witness for C10: an approved `execute_sql_query` whose executor
throws yields the error-text response. -/
theorem approved_action_semantics_witness :
    (processMessage { baseEnv with executeTool := fun _ _ => .error ⟨"nope"⟩ }
        ⟨"msg", true, [], some ⟨"execute_sql_query", .null⟩⟩ ⟨[]⟩).result =
      .response ⟨"❌ Error executing execute_sql_query: nope", none,
        ["execute_sql_query"]⟩ := by
  exact (approved_action_semantics
    { baseEnv with executeTool := fun _ _ => .error ⟨"nope"⟩ }
    ⟨"execute_sql_query", .null⟩ "msg" true [] ⟨[]⟩).2.2.1 ⟨"nope"⟩ rfl

end Agent

namespace QueryRoute

/-- Claim C4: the submit-then-poll query handler fetches the job state;
a job already terminal on the first fetch (the submit result) is
returned unchanged with zero sleeps; a job that never leaves the
non-terminal states makes the handler return the most recently fetched
job annotated as still running, after sleeping exactly
`timeout + pollInterval` (32000 ms) in total; and every invocation
submits exactly once. -/
theorem postQueriesPoll_bounds (createdQuery : Job) (fetchStatus : Nat → Job) :
    (nonTerminal createdQuery.state = false →
      postQueriesPoll createdQuery fetchStatus = (.terminal createdQuery, [QEv.submit])) ∧
    (nonTerminal createdQuery.state = true →
      (∀ m, nonTerminal (fetchStatus m).state = true) →
      (postQueriesPoll createdQuery fetchStatus).1 =
        .stillRunning (fetchStatus 15) "Query is still running. Check back later." ∧
      sleepTotal (postQueriesPoll createdQuery fetchStatus).2 =
        timeoutMs + pollIntervalMs) ∧
    countSubmits (postQueriesPoll createdQuery fetchStatus).2 = 1 := by
  refine ⟨?_, ?_, ?_⟩
  · intro h
    unfold postQueriesPoll
    rw [pollGo_terminal fetchStatus 0 createdQuery 0 h]
  · intro h hF
    obtain ⟨h1, h2, h3⟩ :=
      pollGo_never fetchStatus hF (timeoutMs + 1) 0 createdQuery 0 (by omega) h
    constructor
    · unfold postQueriesPoll
      simp only
      rw [h1]
      norm_num [timeoutMs, pollIntervalMs]
    · unfold postQueriesPoll
      simp only [sleepTotal, List.map_cons, List.sum_cons]
      simp only [sleepTotal] at h2
      rw [h2]
      norm_num [timeoutMs, pollIntervalMs]
  · unfold postQueriesPoll
    simp only [countSubmits, List.countP_cons]
    have h0 := pollGo_no_submit fetchStatus (timeoutMs + 1) 0 createdQuery 0 (by omega)
    simp only [countSubmits] at h0
    simp [h0]

/-- Witness for C4: a job terminal at submission is returned unchanged
with only the submit event; a job stuck in progress is returned with the
still-running annotation after 32000 ms of sleeps. -/
theorem postQueriesPoll_bounds_witness :
    postQueriesPoll ⟨"q1", "SUCCESS"⟩ (fun _ => ⟨"q1", "SUCCESS"⟩) =
      (.terminal ⟨"q1", "SUCCESS"⟩, [QEv.submit]) ∧
    (postQueriesPoll ⟨"q2", "SUBMITTED"⟩ (fun _ => ⟨"q2", "IN_PROGRESS"⟩)).1 =
      .stillRunning ⟨"q2", "IN_PROGRESS"⟩ "Query is still running. Check back later." ∧
    sleepTotal (postQueriesPoll ⟨"q2", "SUBMITTED"⟩ (fun _ => ⟨"q2", "IN_PROGRESS"⟩)).2 =
      timeoutMs + pollIntervalMs := by
  refine ⟨(postQueriesPoll_bounds _ _).1 (by decide), ?_, ?_⟩
  · exact ((postQueriesPoll_bounds _ _).2.1 (by decide) (fun m => by decide)).1
  · exact ((postQueriesPoll_bounds _ _).2.1 (by decide) (fun m => by decide)).2

end QueryRoute
